import Mathlib

/-!
Shallow embedding of the dockcheck orchestration/decision core
(`src/dockcheck/core/policy.py`, `src/dockcheck/core/confidence.py`,
`src/dockcheck/core/orchestrator.py`, `src/dockcheck/agents/parallel.py`,
`src/dockcheck/agents/dispatch.py`) together with theorems settling the
spec claims about it.

Modelling conventions:
* Python `float` values are modelled as `ℚ` (all constants in the code are
  decimal literals, and every claim under scrutiny stays within exactly
  representable decimal arithmetic at the granularity the claims mention).
* Python `int` is `ℤ` where negativity is possible, `ℕ` for counters.
* Python exceptions are modelled with `Except String`; code that catches
  exceptions pattern-matches on the `Except` value.
* Python dictionaries keyed by step name are association lists with
  insert-or-update semantics preserving first-insertion order, exactly as
  CPython `dict` does.
-/

namespace Dockcheck

/-- Python's `round` ties-to-even integer rounding (banker's rounding),
used by `round(x, n)` on the scaled value. -/
def pyRoundInt (q : ℚ) : ℤ :=
  let f : ℤ := ⌊q⌋
  let r : ℚ := q - (f : ℚ)
  if r < 1/2 then f
  else if r > 1/2 then f + 1
  else if Even f then f else f + 1

/-- Python `round(q, 4)`. -/
def round4 (q : ℚ) : ℚ := (pyRoundInt (q * 10000) : ℚ) / 10000

/-- Python substring containment `pat in s` on strings. -/
def strContains (s pat : String) : Bool :=
  decide (pat.toList <:+: s.toList)

/-- The single-quote character, used by the f-strings in the source. -/
def sq : String := String.singleton (Char.ofNat 39)

/-- Python `str.strip()` whitespace set (ASCII part: space, tab, newline,
carriage return, vertical tab, form feed). -/
def pyWsChar (c : Char) : Bool :=
  c = ' ' ∨ c = '\t' ∨ c = '\n' ∨ c = '\r' ∨ c = Char.ofNat 11 ∨
    c = Char.ofNat 12

/-- Python `str.strip()` with no argument. -/
def pyStrip (s : String) : String :=
  String.mk (((s.toList.dropWhile pyWsChar).reverse.dropWhile pyWsChar).reverse)

/-- Python `str.startswith`. -/
def strStartsWith (s pat : String) : Bool :=
  pat.toList.isPrefixOf s.toList

/-- Python `str.endswith`. -/
def strEndsWith (s pat : String) : Bool :=
  pat.toList.reverse.isPrefixOf s.toList.reverse

/-- CPython-`dict` insert-or-update: an existing key keeps its position and
gets the new value, a new key is appended. -/
def dictUpsert {α : Type} (d : List (String × α)) (k : String) (v : α) :
    List (String × α) :=
  if d.any (fun kv => kv.1 = k) then
    d.map fun kv => if kv.1 = k then (k, v) else kv
  else d ++ [(k, v)]

/-- `dict.get(key, default)` on an insertion-ordered association list. -/
def dictGetD {α : Type} (d : List (String × α)) (k : String) (default : α) : α :=
  match d.find? (fun kv => kv.1 = k) with
  | some kv => kv.2
  | none => default

-- ---------------------------------------------------------------------------
-- agents/schemas.py
-- ---------------------------------------------------------------------------

/-- `FindingSeverity` enum from `agents/schemas.py`. -/
inductive FindingSeverity where
  | info
  | warning
  | error
  | critical
deriving DecidableEq, Repr

/-- `FindingSeverity.value` — the string payload of the Python enum. -/
def FindingSeverity.value : FindingSeverity → String
  | .info => "info"
  | .warning => "warning"
  | .error => "error"
  | .critical => "critical"

/-- `Finding` model from `agents/schemas.py`. -/
structure SchemaFinding where
  severity : FindingSeverity
  message : String
  file_path : Option String := none
  line : Option ℤ := none
deriving DecidableEq, Repr

/-- The `action_needed` literal values `"none" | "retry" | "escalate"`. -/
inductive ActionLit where
  | none_
  | retry
  | escalate
deriving DecidableEq, Repr

/-- `AgentResult` model from `agents/schemas.py`; `action_needed` is
`Literal["none","retry","escalate"] | None` with default `"none"`. -/
structure AgentResult where
  completed : Bool
  confidence : ℚ
  turns_used : ℤ := 0
  summary : String := ""
  findings : List SchemaFinding := []
  action_needed : Option ActionLit := some .none_
deriving DecidableEq, Repr

/-- `StepConfig` model from `agents/schemas.py`. -/
structure StepConfig where
  name : String
  skill : String
  agent : String := "claude"
  max_turns : ℕ := 10
  timeout : ℕ := 300
  depends_on : List String := []
  parallel_group : Option String := none
deriving DecidableEq, Repr

/-- `PipelineResult` model from `agents/schemas.py`; `step_results` is a
`dict[str, AgentResult]` kept in insertion order. -/
structure PipelineResult where
  success : Bool
  confidence : ℚ := 0
  step_results : List (String × AgentResult) := []
  blocked : Bool := false
  block_reasons : List String := []
deriving DecidableEq, Repr

-- ---------------------------------------------------------------------------
-- core/policy.py
-- ---------------------------------------------------------------------------

/-- `Verdict` enum from `core/policy.py`. -/
inductive Verdict where
  | pass_
  | fail
  | block
deriving DecidableEq, Repr

/-- `CircuitBreakers` model with its pydantic defaults. -/
structure CircuitBreakers where
  max_containers : ℤ := 5
  max_cost_per_run_usd : ℚ := 10
  max_deploys_per_hour : ℤ := 3
  max_file_deletes_per_turn : ℤ := 10
deriving DecidableEq, Repr

/-- `HardStops` model: `commands` holds the `CommandPattern.pattern`
strings, `critical_paths` the glob strings. -/
structure HardStops where
  commands : List String := []
  critical_paths : List String := []
  circuit_breakers : CircuitBreakers := {}
deriving DecidableEq, Repr

/-- `ConfidenceThresholds` model with its pydantic defaults. -/
structure ConfidenceThresholds where
  auto_deploy_staging : ℚ := 8/10
  auto_promote_prod : ℚ := 9/10
  notify_human : ℚ := 6/10
deriving DecidableEq, Repr

/-- `Policy` model (the notification-channel list is irrelevant to every
claim and is omitted from the state the engine reads). -/
structure Policy where
  hard_stops : HardStops := {}
  confidence_thresholds : ConfidenceThresholds := {}
deriving DecidableEq, Repr

/-- `EvaluationResult` model from `core/policy.py`. -/
structure EvaluationResult where
  verdict : Verdict
  reasons : List String := []
  blocked_commands : List String := []
  blocked_paths : List String := []
  breaker_violations : List String := []
deriving DecidableEq, Repr

/-- `PolicyEngine.evaluate` from `core/policy.py`.

`commands` and `file_paths` model the optional list arguments; Python's
`if commands:` treats `None` and `[]` identically, so both are one `List`
here with an emptiness test.  `matchesGlob` stands for the static method
`PolicyEngine._matches_glob` (fnmatch-based; no claim exercises it, every
claim either passes no `file_paths` or quantifies over the matcher).
Reason strings are built exactly as the f-strings in the source, with
`toString` rendering the numeric insertions. -/
def evaluate (matchesGlob : String → String → Bool) (policy : Policy)
    (commands : List String) (file_paths : List String)
    (container_count : ℤ := 0) (cost_usd : ℚ := 0)
    (deploys_this_hour : ℤ := 0) (file_deletes : ℤ := 0) :
    EvaluationResult :=
  let cmdHits : List (String × String) :=
    if commands.isEmpty then []
    else commands.flatMap fun cmd =>
      (policy.hard_stops.commands.filter fun pat => strContains cmd pat).map
        fun pat => (cmd, pat)
  let blocked_commands := cmdHits.map (·.1)
  let cmdReasons := cmdHits.map fun (cmd, pat) =>
    "Hard stop: command " ++ sq ++ cmd ++ sq ++ " matches blocked pattern " ++
      sq ++ pat ++ sq
  let pathHits : List (String × String) :=
    if file_paths.isEmpty then []
    else file_paths.flatMap fun fpath =>
      (policy.hard_stops.critical_paths.filter fun pat =>
          matchesGlob fpath pat).map fun pat => (fpath, pat)
  let blocked_paths := pathHits.map (·.1)
  let pathReasons := pathHits.map fun (fpath, pat) =>
    "Hard stop: path " ++ sq ++ fpath ++ sq ++ " matches critical pattern " ++
      sq ++ pat ++ sq
  let breakers := policy.hard_stops.circuit_breakers
  let v1 : List String :=
    if container_count > breakers.max_containers then
      ["Container count " ++ toString container_count ++ " exceeds max " ++
        toString breakers.max_containers]
    else []
  let v2 : List String :=
    if cost_usd > breakers.max_cost_per_run_usd then
      ["Cost $" ++ toString cost_usd ++ " exceeds max $" ++
        toString breakers.max_cost_per_run_usd]
    else []
  let v3 : List String :=
    if deploys_this_hour > breakers.max_deploys_per_hour then
      ["Deploys this hour (" ++ toString deploys_this_hour ++ ") exceeds max " ++
        toString breakers.max_deploys_per_hour]
    else []
  let v4 : List String :=
    if file_deletes > breakers.max_file_deletes_per_turn then
      ["File deletes (" ++ toString file_deletes ++ ") exceeds max " ++
        toString breakers.max_file_deletes_per_turn]
    else []
  let breaker_violations := v1 ++ v2 ++ v3 ++ v4
  let reasons := cmdReasons ++ pathReasons ++ breaker_violations
  let verdict :=
    if ¬ blocked_commands.isEmpty ∨ ¬ blocked_paths.isEmpty then Verdict.block
    else if ¬ breaker_violations.isEmpty then Verdict.fail
    else Verdict.pass_
  { verdict := verdict
    reasons := reasons
    blocked_commands := blocked_commands
    blocked_paths := blocked_paths
    breaker_violations := breaker_violations }

/-- `PolicyEngine.should_auto_deploy_staging`. -/
def should_auto_deploy_staging (policy : Policy) (confidence : ℚ) : Bool :=
  confidence ≥ policy.confidence_thresholds.auto_deploy_staging

/-- `PolicyEngine.should_notify_human`. -/
def should_notify_human (policy : Policy) (confidence : ℚ) : Bool :=
  confidence < policy.confidence_thresholds.notify_human

-- ---------------------------------------------------------------------------
-- core/confidence.py
-- ---------------------------------------------------------------------------

/-- `Finding` model from `core/confidence.py` — severity is a bare string
there (`"info"`, `"warning"`, `"error"`, `"critical"`), unlike the enum in
`agents/schemas.py`. -/
structure CoreFinding where
  severity : String
  message : String
  file_path : Option String := none
  line : Option ℤ := none
deriving DecidableEq, Repr

/-- `ActionNeeded` enum from `core/confidence.py`. -/
inductive ActionNeeded where
  | none_
  | retry
  | escalate
deriving DecidableEq, Repr

/-- `AgentStepResult` model from `core/confidence.py`. -/
structure AgentStepResult where
  step : String
  completed : Bool
  confidence : ℚ
  turns_used : ℤ := 0
  summary : String := ""
  findings : List CoreFinding := []
  action_needed : ActionNeeded := .none_
deriving DecidableEq, Repr

/-- `ConfidenceScore` model from `core/confidence.py`; `step_scores` is a
`dict[str, float]` kept in insertion order. -/
structure ConfidenceScore where
  score : ℚ
  reason : String
  step_scores : List (String × ℚ) := []
  has_critical : Bool := false
  has_errors : Bool := false
  incomplete_steps : List String := []
deriving DecidableEq, Repr

/-- `DEFAULT_WEIGHTS` table from `core/confidence.py`. -/
def DEFAULT_WEIGHTS : List (String × ℚ) :=
  [("analyze", 25/100), ("test", 35/100), ("security", 20/100),
   ("verify", 20/100)]

/-- State built by the first loop of `ConfidenceScorer.score`. -/
structure ScanState where
  step_scores : List (String × ℚ) := []
  incomplete_steps : List String := []
  has_critical : Bool := false
  has_errors : Bool := false

/-- The per-finding flag updates of the scan loop in
`ConfidenceScorer.score`. -/
def applyFinding (st : ScanState) (finding : CoreFinding) : ScanState :=
  let st :=
    if finding.severity = "critical" then { st with has_critical := true }
    else st
  if finding.severity = "error" then { st with has_errors := true } else st

/-- One iteration of the scan loop in `ConfidenceScorer.score`. -/
def scanStep (st : ScanState) (result : AgentStepResult) : ScanState :=
  let st := { st with step_scores := dictUpsert st.step_scores result.step result.confidence }
  let st :=
    if ¬ result.completed then
      { st with incomplete_steps := st.incomplete_steps ++ [result.step] }
    else st
  result.findings.foldl applyFinding st

/-- The full scan loop of `ConfidenceScorer.score`. -/
def scan (results : List AgentStepResult) : ScanState :=
  results.foldl scanStep {}

/-- `ConfidenceScorer.score` from `core/confidence.py`.  `weights` is the
scorer's weight table (`DEFAULT_WEIGHTS` unless a custom one is given). -/
def score (weights : List (String × ℚ)) (results : List AgentStepResult) :
    ConfidenceScore :=
  if results.isEmpty then
    { score := 0, reason := "No agent results to score." }
  else
    let st := scan results
    if st.has_critical then
      { score := 0
        reason := "Critical finding detected — deployment blocked."
        step_scores := st.step_scores
        has_critical := true
        has_errors := st.has_errors
        incomplete_steps := st.incomplete_steps }
    else
      let total_weight :=
        st.step_scores.foldl (fun acc kv => acc + dictGetD weights kv.1 (1/10)) 0
      let weighted_sum :=
        st.step_scores.foldl (fun acc kv => acc + kv.2 * dictGetD weights kv.1 (1/10)) 0
      let raw_score : ℚ := if total_weight = 0 then 0 else weighted_sum / total_weight
      let raw_score :=
        if ¬ st.incomplete_steps.isEmpty then
          max 0 (raw_score - (1/10) * st.incomplete_steps.length)
        else raw_score
      let raw_score := if st.has_errors then raw_score * (8/10) else raw_score
      let final_score := round4 (min 1 (max 0 raw_score))
      let reasons : List String :=
        (if ¬ st.incomplete_steps.isEmpty then
          ["Incomplete steps: " ++ String.intercalate ", " st.incomplete_steps]
        else []) ++
        (if st.has_errors then ["Non-critical errors detected (20% penalty)"] else [])
      let reasons :=
        if reasons.isEmpty then
          ["All steps completed. Weighted score: " ++ toString final_score]
        else reasons
      { score := final_score
        reason := String.intercalate "; " reasons
        step_scores := st.step_scores
        has_critical := st.has_critical
        has_errors := st.has_errors
        incomplete_steps := st.incomplete_steps }

-- ---------------------------------------------------------------------------
-- core/orchestrator.py
-- ---------------------------------------------------------------------------

/-- Python list `repr`, as used by the f-string in the cyclic-dependency
error message (`{cycle_names}` renders as `['a', 'b']`). -/
def pyReprStrList (xs : List String) : String :=
  "[" ++ String.intercalate ", " (xs.map fun s => sq ++ s ++ sq) ++ "]"

/-- The `ValueError` message of the cyclic-dependency branch of
`Orchestrator._resolve_dependencies`. -/
def cycleMessage (names : List String) : String :=
  "Cyclic dependency detected among steps: " ++ pyReprStrList names

/-- The up-front validation pass of `Orchestrator._resolve_dependencies`:
the first `(step name, dependency)` pair whose dependency is not a known
step name, scanning steps and their `depends_on` lists in order. -/
def firstUnknownDep (steps : List StepConfig) : Option (String × String) :=
  let names := steps.map (·.name)
  steps.findSome? fun step =>
    (step.depends_on.find? fun d => ¬ names.contains d).map
      fun d => (step.name, d)

/-- The `while remaining:` loop of `Orchestrator._resolve_dependencies`.
The loop consumes at least one step per iteration, so `fuel` bounds the
iteration count; called with `fuel = remaining.length` the fuel can never
run out before `remaining` does (see `resolveLoop_fuel_irrelevant`-style
reasoning in the theorems below), and the fuel-exhausted branch coincides
with the stuck branch. -/
def resolveLoop : ℕ → List String → List StepConfig →
    Except String (List (List StepConfig))
  | _, _, [] => .ok []
  | 0, _, remaining => .error (cycleMessage (remaining.map (·.name)))
  | fuel + 1, completed, remaining =>
    let ready := remaining.filter fun s =>
      s.depends_on.all fun d => completed.contains d
    if ready.isEmpty then
      .error (cycleMessage (remaining.map (·.name)))
    else
      match resolveLoop fuel (completed ++ ready.map (·.name))
          (remaining.filter fun s =>
            ! (s.depends_on.all fun d => completed.contains d)) with
      | .ok layers => .ok (ready :: layers)
      | .error e => .error e

/-- `Orchestrator._resolve_dependencies`: validate every `depends_on`
reference, then peel execution layers; a `ValueError` is an `Except.error`. -/
def resolveDependencies (steps : List StepConfig) :
    Except String (List (List StepConfig)) :=
  match firstUnknownDep steps with
  | some (sname, dep) =>
    .error ("Step " ++ sq ++ sname ++ sq ++ " depends on unknown step " ++
      sq ++ dep ++ sq ++ ".")
  | none => resolveLoop steps.length [] steps

/-- `_group_by_parallel` from `core/orchestrator.py`: an `OrderedDict`
keyed by `parallel_group`, or by the unique key `"__solo_" ++ name` for
ungrouped steps (the solo branch assigns `[step]`, the grouped branch
appends). -/
def groupByParallel (layer : List StepConfig) : List (List StepConfig) :=
  let groups := layer.foldl
    (fun gs step =>
      match step.parallel_group with
      | none => dictUpsert gs ("__solo_" ++ step.name) [step]
      | some key =>
        if gs.any (fun kv => kv.1 = key) then
          gs.map fun kv => if kv.1 = key then (key, kv.2 ++ [step]) else kv
        else gs ++ [(key, [step])])
    []
  groups.map (·.2)

/-- The synthesized `AgentResult` of the policy-BLOCK branch of
`Orchestrator._execute_step`. -/
def blockedByPolicyResult (reasons : List String) : AgentResult :=
  { completed := false
    confidence := 0
    summary := "Blocked by policy: " ++ String.intercalate "; " reasons
    action_needed := some .escalate
    findings := reasons.map fun reason =>
      { severity := .critical, message := reason } }

/-- The synthesized `AgentResult` of the `except Exception` branch of
`Orchestrator._execute_step`. -/
def dispatchErrorResult (exc : String) : AgentResult :=
  { completed := false
    confidence := 0
    summary := "Dispatch error: " ++ exc
    action_needed := some .escalate
    findings := [{ severity := .error, message := exc }] }

/-- The `context` dict of `Orchestrator.run_pipeline` — only the
`"commands"` and `"file_paths"` keys are read by step execution
(`context.get(..., [])`). -/
structure Context where
  commands : List String := []
  file_paths : List String := []

/-- `Orchestrator._execute_step`.  `dispatchStep` models one
`AgentDispatcher.dispatch` call for this step (the step's agent kind,
prompt, `max_turns` and `timeout` are fixed, so one attempt is a function
of the attempt index alone); a raised exception is `Except.error` and is
converted, never propagated. -/
def executeStep (matchesGlob : String → String → Bool) (policy : Policy)
    (ctx : Context) (dispatchStep : ℕ → Except String AgentResult)
    (attempt : ℕ) : AgentResult :=
  if ¬ ctx.commands.isEmpty ∨ ¬ ctx.file_paths.isEmpty then
    let eval_result := evaluate matchesGlob policy ctx.commands ctx.file_paths
    if eval_result.verdict = .block then
      blockedByPolicyResult eval_result.reasons
    else
      match dispatchStep attempt with
      | .ok r => r
      | .error exc => dispatchErrorResult exc
  else
    match dispatchStep attempt with
    | .ok r => r
    | .error exc => dispatchErrorResult exc

/-- The `while` loop of `Orchestrator._execute_step_with_retry`, also
returning the Python `attempts` counter (= number of `_execute_step`
calls made so far).  The loop runs while `attempts ≤ max_retries`, so
`fuel = max_retries + 1` can never be exhausted; at `fuel = 0` the guard
`attempts ≤ maxRetries` is already false whenever the entry invariant
`fuel ≥ maxRetries + 2 - attempts` holds, making the two exits agree. -/
def retryGo (maxRetries : ℕ) (exec : ℕ → AgentResult) :
    ℕ → ℕ → AgentResult → AgentResult × ℕ
  | 0, attempts, result => (result, attempts)
  | fuel + 1, attempts, result =>
    if result.action_needed = some .retry ∧ attempts ≤ maxRetries then
      retryGo maxRetries exec fuel (attempts + 1) (exec attempts)
    else (result, attempts)

/-- `Orchestrator._execute_step_with_retry` (paired with the final value
of the `attempts` counter, i.e. the total number of dispatch attempts). -/
def executeStepWithRetry (maxRetries : ℕ) (exec : ℕ → AgentResult) :
    AgentResult × ℕ :=
  retryGo maxRetries exec (maxRetries + 1) 1 (exec 0)

/-- `_agent_result_to_step_result` from `core/orchestrator.py`. -/
def agentResultToStepResult (step_name : String) (result : AgentResult) :
    AgentStepResult :=
  { step := step_name
    completed := result.completed
    confidence := result.confidence
    turns_used := result.turns_used
    summary := result.summary
    findings := result.findings.map fun f =>
      { severity := f.severity.value
        message := f.message
        file_path := f.file_path
        line := f.line }
    action_needed :=
      match result.action_needed with
      | some .none_ => .none_
      | some .retry => .retry
      | some .escalate => .escalate
      | none => .none_ }

/-- The scorer invocation pattern of `run_pipeline`:
`score([_agent_result_to_step_result(n, r) for n, r in step_results.items()])`. -/
def scoreOf (weights : List (String × ℚ))
    (step_results : List (String × AgentResult)) : ConfidenceScore :=
  score weights (step_results.map fun nr => agentResultToStepResult nr.1 nr.2)

/-- `Orchestrator._make_decision`. -/
def makeDecision (policy : Policy) (pipeline_result : PipelineResult) :
    String :=
  if pipeline_result.blocked then "block"
  else if pipeline_result.confidence <
      policy.confidence_thresholds.notify_human then "block"
  else if pipeline_result.confidence <
      policy.confidence_thresholds.auto_deploy_staging then "notify"
  else "deploy"

/-- Python `f"{q:.2f}"` — two decimals, ties to even. -/
def format2 (q : ℚ) : String :=
  let n := pyRoundInt (q * 100)
  let m := n.natAbs
  let frac := m % 100
  (if n < 0 then "-" else "") ++ toString (m / 100) ++ "." ++
    (if frac < 10 then "0" else "") ++ toString frac

/-- The external `Notifier.notify` collaborator: event, message, and the
`{"confidence": ...}` context dict; an exception is `Except.error`. -/
def Notifier : Type := String → String → Option ℚ → Except String Unit

/-- `NullNotifier.notify` — always returns normally. -/
def nullNotifier : Notifier := fun _ _ _ => .ok ()

/-- One dispatcher for a whole pipeline: step configuration and attempt
index to outcome.  Deterministic per (step, attempt), which is exactly the
information `run_pipeline` threads into each dispatch call. -/
def Dispatch : Type := StepConfig → ℕ → Except String AgentResult

/-- The `for group in groups:` loop body of `Orchestrator.run_pipeline`:
either an early blocked `PipelineResult` (singleton escalation) or the
updated `(step_results, block_reasons)` state. -/
def runGroups (matchesGlob : String → String → Bool) (policy : Policy)
    (weights : List (String × ℚ)) (maxRetries : ℕ) (notifier : Notifier)
    (dispatch : Dispatch) (ctx : Context) :
    List (List StepConfig) → List (String × AgentResult) → List String →
    Except String (PipelineResult ⊕ (List (String × AgentResult) × List String))
  | [], step_results, block_reasons => .ok (.inr (step_results, block_reasons))
  | group :: rest, step_results, block_reasons =>
    match group with
    | [step] =>
      let result := (executeStepWithRetry maxRetries
        (executeStep matchesGlob policy ctx (dispatch step))).1
      let step_results := dictUpsert step_results step.name result
      if result.action_needed = some .escalate then
        let block_reasons := block_reasons ++
          ["Step " ++ sq ++ step.name ++ sq ++ " escalated: " ++ result.summary]
        let sc := scoreOf weights step_results
        do
          _ ← notifier "block"
            ("Pipeline blocked at step " ++ sq ++ step.name ++ sq)
            (some sc.score)
          .ok (.inl { success := false
                      confidence := sc.score
                      step_results := step_results
                      blocked := true
                      block_reasons := block_reasons })
      else
        runGroups matchesGlob policy weights maxRetries notifier dispatch ctx
          rest step_results block_reasons
    | _ =>
      let group_results := group.map fun s =>
        (s, (executeStepWithRetry maxRetries
          (executeStep matchesGlob policy ctx (dispatch s))).1)
      let step_results := group_results.foldl
        (fun sr pr => dictUpsert sr pr.1.name pr.2) step_results
      let block_reasons := block_reasons ++ group_results.filterMap fun pr =>
        if pr.2.action_needed = some .escalate then
          some ("Step " ++ sq ++ pr.1.name ++ sq ++ " escalated: " ++
            pr.2.summary)
        else none
      runGroups matchesGlob policy weights maxRetries notifier dispatch ctx
        rest step_results block_reasons

/-- The `for layer_idx, layer in enumerate(layers):` loop of
`Orchestrator.run_pipeline`, including the after-layer escalation check. -/
def runLayers (matchesGlob : String → String → Bool) (policy : Policy)
    (weights : List (String × ℚ)) (maxRetries : ℕ) (notifier : Notifier)
    (dispatch : Dispatch) (ctx : Context) :
    List (List StepConfig) → ℕ → List (String × AgentResult) → List String →
    Except String (PipelineResult ⊕ (List (String × AgentResult) × List String))
  | [], _, step_results, block_reasons =>
    .ok (.inr (step_results, block_reasons))
  | layer :: rest, layer_idx, step_results, block_reasons => do
    match ← runGroups matchesGlob policy weights maxRetries notifier dispatch
        ctx (groupByParallel layer) step_results block_reasons with
    | .inl pr => .ok (.inl pr)
    | .inr (step_results, block_reasons) =>
      if ¬ block_reasons.isEmpty then
        let sc := scoreOf weights step_results
        do
          _ ← notifier "block"
            ("Pipeline blocked after layer " ++ toString layer_idx)
            (some sc.score)
          .ok (.inl { success := false
                      confidence := sc.score
                      step_results := step_results
                      blocked := true
                      block_reasons := block_reasons })
      else
        runLayers matchesGlob policy weights maxRetries notifier dispatch ctx
          rest (layer_idx + 1) step_results block_reasons

/-- `Orchestrator.run_pipeline`.  The dependency-resolution `ValueError`
and any exception a notifier raises propagate as `Except.error`; every
other failure mode is converted into result data by the inner helpers. -/
def runPipeline (matchesGlob : String → String → Bool) (policy : Policy)
    (weights : List (String × ℚ)) (maxRetries : ℕ) (notifier : Notifier)
    (dispatch : Dispatch) (steps : List StepConfig) (ctx : Context) :
    Except String PipelineResult := do
  match resolveDependencies steps with
  | .error e => .error e
  | .ok layers =>
    match ← runLayers matchesGlob policy weights maxRetries notifier dispatch
        ctx layers 0 [] [] with
    | .inl pr => pure pr
    | .inr (step_results, block_reasons) =>
      let confidence_score := scoreOf weights step_results
      let final_confidence := confidence_score.score
      let block_reasons :=
        if confidence_score.has_critical then
          block_reasons ++ ["Critical finding detected by confidence scorer."]
        else block_reasons
      let decision := makeDecision policy
        { success := block_reasons.isEmpty
          confidence := final_confidence
          step_results := step_results
          blocked := ¬ block_reasons.isEmpty
          block_reasons := block_reasons }
      if decision = "block" then do
        _ ← notifier "block"
          "Pipeline blocked — confidence below threshold or critical finding."
          (some final_confidence)
        pure { success := false
               confidence := final_confidence
               step_results := step_results
               blocked := true
               block_reasons :=
                 if block_reasons.isEmpty then
                   ["Confidence " ++ format2 final_confidence ++
                     " below deploy threshold."]
                 else block_reasons }
      else if decision = "notify" then do
        _ ← notifier "notify"
          "Pipeline requires human review before deployment."
          (some final_confidence)
        pure { success := false
               confidence := final_confidence
               step_results := step_results
               blocked := false
               block_reasons :=
                 ["Confidence " ++ format2 final_confidence ++
                   " requires human review."] }
      else do
        _ ← notifier "deploy"
          "Pipeline passed — ready for deployment."
          (some final_confidence)
        pure { success := true
               confidence := final_confidence
               step_results := step_results
               blocked := false
               block_reasons := [] }

-- ---------------------------------------------------------------------------
-- agents/parallel.py
-- ---------------------------------------------------------------------------

/-- `ParallelTask` model from `agents/parallel.py`. -/
structure ParallelTask where
  task_id : String
  agent : String := "claude"
  prompt : String
  system_prompt : String := ""
  max_turns : ℕ := 10
  timeout : ℕ := 300
deriving DecidableEq, Repr

/-- `ParallelResult` model from `agents/parallel.py`.  Wall-clock elapsed
times are environment inputs; the embedding takes them as given by the
per-task `elapsed` oracle below (no claim constrains them). -/
structure ParallelResult where
  task_id : String
  result : Option AgentStepResult := none
  error : Option String := none
  elapsed_seconds : ℚ := 0
deriving DecidableEq, Repr

/-- `FanOutResult` model from `agents/parallel.py`. -/
structure FanOutResult where
  results : List ParallelResult := []
  total_elapsed : ℚ := 0
  all_completed : Bool := false
  failed_tasks : List String := []
deriving DecidableEq, Repr

/-- The `_run_task` closure inside `ParallelDispatcher.fan_out`: one task's
dispatch (`dispatch` models `self._dispatcher.dispatch`, with the
missing-dispatcher `RuntimeError` as one more possible `Except.error`);
any exception is caught and becomes a `ParallelResult` with `error` set. -/
def runTask (dispatch : ParallelTask → Except String AgentResult)
    (elapsed : ParallelTask → ℚ) (task : ParallelTask) : ParallelResult :=
  match dispatch task with
  | .ok result =>
    { task_id := task.task_id
      result := some
        { step := task.task_id
          completed := result.completed
          confidence := result.confidence
          turns_used := result.turns_used
          summary := result.summary
          findings := result.findings.map fun f =>
            { severity := f.severity.value, message := f.message } }
      elapsed_seconds := elapsed task }
  | .error e =>
    { task_id := task.task_id
      error := some e
      elapsed_seconds := elapsed task }

/-- `ParallelDispatcher.fan_out`: `asyncio.gather` returns one result per
task, in input-task order, independent of completion order; the semaphore
bounds concurrency but does not affect the collected values. -/
def fanOut (dispatch : ParallelTask → Except String AgentResult)
    (elapsed : ParallelTask → ℚ) (total_elapsed : ℚ)
    (tasks : List ParallelTask) : FanOutResult :=
  let results := tasks.map (runTask dispatch elapsed)
  let failed := (results.filter fun r => r.error ≠ none).map (·.task_id)
  let all_completed := results.all fun r =>
    if r.error = none then
      match r.result with
      | some res => res.completed
      | none => false
    else true
  { results := results
    total_elapsed := total_elapsed
    all_completed := all_completed && failed.isEmpty
    failed_tasks := failed }

-- ---------------------------------------------------------------------------
-- agents/dispatch.py — JSON values and `json.loads`
-- ---------------------------------------------------------------------------

/-- A parsed JSON value (the codomain of `json.loads`). -/
inductive Json where
  | null
  | bool (b : Bool)
  | num (q : ℚ)
  | str (s : String)
  | arr (items : List Json)
  | obj (fields : List (String × Json))

/-- The `U+007B` / `U+007D` curly-bracket characters. -/
def lcurly : Char := Char.ofNat 123

/-- See `lcurly`. -/
def rcurly : Char := Char.ofNat 125

/-- JSON insignificant whitespace skipping. -/
def jsonSkipWs : List Char → List Char
  | c :: cs =>
    if c = ' ' ∨ c = '\t' ∨ c = '\n' ∨ c = '\r' then jsonSkipWs cs else c :: cs
  | [] => []

/-- Hex digit value for `\uXXXX` escapes. -/
def hexVal (c : Char) : Option ℕ :=
  if '0' ≤ c ∧ c ≤ '9' then some (c.toNat - 48)
  else if 'a' ≤ c ∧ c ≤ 'f' then some (c.toNat - 87)
  else if 'A' ≤ c ∧ c ≤ 'F' then some (c.toNat - 55)
  else none

/-- JSON string-literal body parser (the opening quote is consumed); strict
mode: unescaped control characters are rejected, as `json.loads` does. -/
def jsonStringGo (acc : List Char) : List Char → Option (String × List Char)
  | [] => none
  | '"' :: rest => some (String.mk acc.reverse, rest)
  | '\\' :: esc =>
    match esc with
    | '"' :: rest => jsonStringGo ('"' :: acc) rest
    | '\\' :: rest => jsonStringGo ('\\' :: acc) rest
    | '/' :: rest => jsonStringGo ('/' :: acc) rest
    | 'b' :: rest => jsonStringGo (Char.ofNat 8 :: acc) rest
    | 'f' :: rest => jsonStringGo (Char.ofNat 12 :: acc) rest
    | 'n' :: rest => jsonStringGo ('\n' :: acc) rest
    | 'r' :: rest => jsonStringGo ('\r' :: acc) rest
    | 't' :: rest => jsonStringGo ('\t' :: acc) rest
    | 'u' :: h1 :: h2 :: h3 :: h4 :: rest =>
      match hexVal h1, hexVal h2, hexVal h3, hexVal h4 with
      | some a, some b, some c, some d =>
        jsonStringGo (Char.ofNat (((a * 16 + b) * 16 + c) * 16 + d) :: acc) rest
      | _, _, _, _ => none
    | _ => none
  | c :: rest =>
    if c.toNat < 32 then none else jsonStringGo (c :: acc) rest

/-- Greedily take decimal digits. -/
def takeDigits : List Char → List Char × List Char
  | c :: cs =>
    if '0' ≤ c ∧ c ≤ '9' then
      let (ds, rest) := takeDigits cs
      (c :: ds, rest)
    else ([], c :: cs)
  | [] => ([], [])

/-- Decimal value of a digit list. -/
def digitsVal (ds : List Char) : ℕ :=
  ds.foldl (fun acc c => acc * 10 + (c.toNat - 48)) 0

/-- The rational value of a parsed JSON number, from its pieces. -/
def jsonNumValue (neg : Bool) (intDs fracDs : List Char) (eneg : Bool)
    (expDs : List Char) : ℚ :=
  let mantissa : ℕ := digitsVal intDs * 10 ^ fracDs.length + digitsVal fracDs
  let base : ℚ := (mantissa : ℚ) / ((10 : ℚ) ^ fracDs.length)
  let e := digitsVal expDs
  let q := if eneg then base / ((10 : ℚ) ^ e) else base * ((10 : ℚ) ^ e)
  if neg then -q else q

/-- JSON number grammar: `-? int frac? exp?` with `int = 0 | [1-9][0-9]*`.
Returns the exact rational value (`json.loads` produces the nearest
binary float or an exact int; every literal the claims exercise is exact
in both readings). -/
def jsonNumber (cs : List Char) : Option (ℚ × List Char) :=
  let (neg, cs1) := match cs with
    | '-' :: rest => (true, rest)
    | _ => (false, cs)
  let (intDs, cs2) := takeDigits cs1
  if intDs.isEmpty then none
  else if intDs.head? = some '0' ∧ intDs.length > 1 then none
  else
    let hasDot := cs2.head? = some '.'
    let (fracDs, cs3) := match cs2 with
      | '.' :: rest => takeDigits rest
      | _ => ([], cs2)
    if hasDot ∧ fracDs.isEmpty then none
    else
      match cs3 with
      | 'e' :: ecs | 'E' :: ecs =>
        let (eneg, ecs2) := match ecs with
          | '-' :: rest => (true, rest)
          | '+' :: rest => (false, rest)
          | _ => (false, ecs)
        let (expDs, cs4) := takeDigits ecs2
        if expDs.isEmpty then none
        else some (jsonNumValue neg intDs fracDs eneg expDs, cs4)
      | _ => some (jsonNumValue neg intDs fracDs false [], cs3)

mutual

/-- Recursive-descent JSON value parser.  `fuel` only bounds the recursion
depth of the grammar walk; every recursive call consumes input, so any
fuel above the input length is equivalent (the top-level entry point
passes `length + 1`). -/
def jsonValue : ℕ → List Char → Option (Json × List Char)
  | 0, _ => none
  | fuel + 1, cs =>
    match jsonSkipWs cs with
    | 't' :: 'r' :: 'u' :: 'e' :: rest => some (.bool true, rest)
    | 'f' :: 'a' :: 'l' :: 's' :: 'e' :: rest => some (.bool false, rest)
    | 'n' :: 'u' :: 'l' :: 'l' :: rest => some (.null, rest)
    | '"' :: rest =>
      match jsonStringGo [] rest with
      | some (s, rest) => some (.str s, rest)
      | none => none
    | '[' :: rest =>
      (match jsonSkipWs rest with
      | ']' :: rest => some (.arr [], rest)
      | other => jsonArrayGo fuel [] other)
    | c :: rest =>
      if c = lcurly then
        match jsonSkipWs rest with
        | c2 :: rest2 =>
          if c2 = rcurly then some (.obj [], rest2)
          else jsonObjectGo fuel [] (c2 :: rest2)
        | [] => none
      else jsonNumber (c :: rest) |>.map fun qr => (.num qr.1, qr.2)
    | [] => none

/-- Array items: value (`,` value)* `]`. -/
def jsonArrayGo : ℕ → List Json → List Char → Option (Json × List Char)
  | 0, _, _ => none
  | fuel + 1, acc, cs =>
    match jsonValue fuel cs with
    | none => none
    | some (v, rest) =>
      match jsonSkipWs rest with
      | ',' :: rest => jsonArrayGo fuel (v :: acc) rest
      | ']' :: rest => some (.arr (v :: acc).reverse, rest)
      | _ => none

/-- Object members: string `:` value (`,` string `:` value)* `}`. -/
def jsonObjectGo : ℕ → List (String × Json) → List Char →
    Option (Json × List Char)
  | 0, _, _ => none
  | fuel + 1, acc, cs =>
    match jsonSkipWs cs with
    | '"' :: rest =>
      match jsonStringGo [] rest with
      | none => none
      | some (k, rest) =>
        match jsonSkipWs rest with
        | ':' :: rest =>
          match jsonValue fuel rest with
          | none => none
          | some (v, rest) =>
            match jsonSkipWs rest with
            | ',' :: rest => jsonObjectGo fuel (dictUpsert acc k v) rest
            | c :: rest =>
              if c = rcurly then some (.obj (dictUpsert acc k v), rest)
              else none
            | [] => none
        | _ => none
    | _ => none

end

/-- `json.loads`: a full parse of the input with only trailing whitespace
left over; any other outcome raises `JSONDecodeError` (`none` here). -/
def jsonLoads (s : String) : Option Json :=
  match jsonValue (s.length + 1) s.toList with
  | some (j, rest) => if (jsonSkipWs rest).isEmpty then some j else none
  | none => none

-- ---------------------------------------------------------------------------
-- agents/dispatch.py — pydantic validation and `_parse_claude_output`
-- ---------------------------------------------------------------------------

/-- Key lookup in a parsed JSON object. -/
def jLookup (kvs : List (String × Json)) (k : String) : Option Json :=
  (kvs.find? fun kv => kv.1 = k).map (·.2)

/-- `FindingSeverity(value)` coercion used by pydantic on the enum field. -/
def severityOfString : String → Option FindingSeverity
  | "info" => some .info
  | "warning" => some .warning
  | "error" => some .error
  | "critical" => some .critical
  | _ => none

/-- `Finding.model_validate` on a parsed JSON value (`agents/schemas.py`):
`severity` and `message` required, `file_path`/`line` optional and
nullable.  Inputs are JSON values, so only the JSON-shaped coercions are
modelled (every claim input uses exactly these shapes). -/
def validateFinding (j : Json) : Option SchemaFinding := do
  match j with
  | .obj kvs =>
    let severity ← match jLookup kvs "severity" with
      | some (.str s) => severityOfString s
      | _ => none
    let message ← match jLookup kvs "message" with
      | some (.str s) => some s
      | _ => none
    let file_path ← match jLookup kvs "file_path" with
      | none => some none
      | some .null => some none
      | some (.str s) => some (some s)
      | _ => none
    let line ← match jLookup kvs "line" with
      | none => some none
      | some .null => some none
      | some (.num q) => if q.den = 1 then some (some q.num) else none
      | _ => none
    pure { severity := severity, message := message,
           file_path := file_path, line := line }
  | _ => none

/-- `AgentResult.model_validate` on a parsed JSON value
(`agents/schemas.py`): `completed` and `confidence` required, `confidence`
constrained to `[0, 1]`, `action_needed` a nullable literal defaulting to
`"none"`; unknown keys are ignored.  As with `validateFinding`, only the
JSON-shaped coercions are modelled. -/
def validateAgentResult (j : Json) : Option AgentResult := do
  match j with
  | .obj kvs =>
    let completed ← match jLookup kvs "completed" with
      | some (.bool b) => some b
      | _ => none
    let confidence ← match jLookup kvs "confidence" with
      | some (.num q) => if 0 ≤ q ∧ q ≤ 1 then some q else none
      | _ => none
    let turns_used ← match jLookup kvs "turns_used" with
      | none => some 0
      | some (.num q) => if q.den = 1 then some q.num else none
      | _ => none
    let summary ← match jLookup kvs "summary" with
      | none => some ""
      | some (.str s) => some s
      | _ => none
    let findings ← match jLookup kvs "findings" with
      | none => some []
      | some (.arr items) => items.mapM validateFinding
      | _ => none
    let action_needed ← match jLookup kvs "action_needed" with
      | none => some (some ActionLit.none_)
      | some .null => some none
      | some (.str "none") => some (some ActionLit.none_)
      | some (.str "retry") => some (some ActionLit.retry)
      | some (.str "escalate") => some (some ActionLit.escalate)
      | _ => none
    pure { completed := completed, confidence := confidence,
           turns_used := turns_used, summary := summary,
           findings := findings, action_needed := action_needed }
  | _ => none

/-- Python string slicing `s[:n]`. -/
def pyTruncate (s : String) (n : ℕ) : String :=
  String.mk (s.toList.take n)

/-- Split a character list at newlines. -/
def splitNlGo (acc : List Char) : List Char → List String
  | [] => [String.mk acc.reverse]
  | c :: cs =>
    if c = '\n' then String.mk acc.reverse :: splitNlGo [] cs
    else splitNlGo (c :: acc) cs

/-- Python `str.splitlines()` for `\n`-terminated text (the only line
terminator occurring in the parser inputs under scrutiny). -/
def pySplitlines (s : String) : List String :=
  if s.isEmpty then []
  else
    let parts := splitNlGo [] s.toList
    if strEndsWith s "\n" then parts.dropLast else parts

/-- The fence-stripping loop of `_parse_claude_output`: skip until the
first fence line, collect until the next fence line. -/
def stripFenceGo (in_fence : Bool) (acc : List String) :
    List String → List String
  | [] => acc
  | line :: rest =>
    if strStartsWith line "```" ∧ ¬ in_fence then stripFenceGo true acc rest
    else if strStartsWith line "```" ∧ in_fence then acc
    else if in_fence then stripFenceGo in_fence (acc ++ [line]) rest
    else stripFenceGo in_fence acc rest

mutual

/-- Python `repr()` on a parsed-JSON value, used for values nested in
containers.  The numeric rendering is approximated (`repr` of floats is
not reproduced digit for digit); every claim input takes the string
branch of `pyJsonStr`, which never reaches this function. -/
def pyJsonRepr : Json → String
  | .str s => sq ++ s ++ sq
  | .null => "None"
  | .bool true => "True"
  | .bool false => "False"
  | .num q => if q.den = 1 then toString q.num else toString q
  | .arr items => "[" ++ String.intercalate ", " (pyJsonReprList items) ++ "]"
  | .obj kvs =>
    lcurly.toString ++ String.intercalate ", " (pyJsonReprFields kvs) ++
      rcurly.toString

/-- `repr` of each array item. -/
def pyJsonReprList : List Json → List String
  | [] => []
  | j :: rest => pyJsonRepr j :: pyJsonReprList rest

/-- `repr` of each object field. -/
def pyJsonReprFields : List (String × Json) → List String
  | [] => []
  | (k, v) :: rest =>
    (sq ++ k ++ sq ++ ": " ++ pyJsonRepr v) :: pyJsonReprFields rest

end

/-- Python `str()` on a parsed-JSON value, as applied by
`_parse_claude_output` to `envelope.get("result", ...)`: a string is
itself, any other value renders via `repr`. -/
def pyJsonStr : Json → String
  | .str s => s
  | j => pyJsonRepr j

/-- `_parse_claude_output` from `agents/dispatch.py`: the tolerant parse
cascade over the Claude CLI JSON envelope. -/
def parseClaudeOutput (raw stderr : String) : AgentResult :=
  let raw := pyStrip raw
  if raw.isEmpty then
    { completed := false
      confidence := 0
      summary := "Empty response from agent. stderr=" ++ pyTruncate stderr 200 }
  else
    match jsonLoads raw with
    | none =>
      { completed := true, confidence := 1/2, summary := pyTruncate raw 500 }
    | some envelope =>
      let direct : Option AgentResult :=
        match envelope with
        | .obj kvs =>
          if (jLookup kvs "completed").isSome then validateAgentResult envelope
          else none
        | _ => none
      match direct with
      | some r => r
      | none =>
        let inner_text : String :=
          match envelope with
          | .obj kvs =>
            pyJsonStr ((jLookup kvs "result").getD
              ((jLookup kvs "content").getD (.str "")))
          | _ => raw
        let inner_text := pyStrip inner_text
        let inner_text :=
          if strStartsWith inner_text "```" then
            pyStrip (String.intercalate "\n"
              (stripFenceGo false [] (pySplitlines inner_text)))
          else inner_text
        let parsed : Option AgentResult :=
          match jsonLoads inner_text with
          | some (Json.obj kvs) =>
            if (jLookup kvs "completed").isSome then
              validateAgentResult (.obj kvs)
            else none
          | _ => none
        match parsed with
        | some r => r
        | none =>
          let t := pyTruncate inner_text 500
          { completed := true
            confidence := 1/2
            summary := if t.isEmpty then pyTruncate raw 500 else t }

-- ---------------------------------------------------------------------------
-- Infrastructure for the theorems
-- ---------------------------------------------------------------------------

instance {ε α : Type} [DecidableEq ε] [DecidableEq α] :
    DecidableEq (Except ε α) := fun a b =>
  match a, b with
  | .error e, .error f => decidable_of_iff (e = f) (by simp)
  | .ok x, .ok y => decidable_of_iff (x = y) (by simp)
  | .error _, .ok _ => isFalse (by simp)
  | .ok _, .error _ => isFalse (by simp)

/-- Python `str.lower()` (ASCII range, which covers every pattern in the
policy under scrutiny). -/
def pyLower (s : String) : String :=
  String.mk (s.toList.map fun c =>
    if 'A' ≤ c ∧ c ≤ 'Z' then Char.ofNat (c.toNat + 32) else c)

-- ---------------------------------------------------------------------------
-- Concrete fixtures used by counterexamples and witnesses
-- ---------------------------------------------------------------------------

/-- Scenario A step results: analyze at 0.95, test at 0.92, both completed,
no findings. -/
def scenarioA : List AgentStepResult :=
  [{ step := "analyze", completed := true, confidence := 95/100 },
   { step := "test", completed := true, confidence := 92/100 }]

/-- A policy that is all defaults (`auto_deploy_staging = 0.8`,
`notify_human = 0.6`, breaker limits 5 / 10.0 / 3 / 10). -/
def defaultPolicy : Policy := {}

/-- A policy whose hard-stop command patterns are exactly
`["rm -rf /"]`. -/
def rmrfPolicy : Policy :=
  { hard_stops := { commands := ["rm -rf /"] } }

/-- The Scenario E stdout: a Claude JSON envelope whose `result` field
holds a Markdown-fenced JSON result object. -/
def c9Stdout : String :=
  "\x7b\"type\": \"result\", \"result\": \"```json\\n\x7b\\\"completed\\\": true, \\\"confidence\\\": 0.7, \\\"summary\\\": \\\"ok\\\"\x7d\\n```\"\x7d"

/-- A single dependency-free pipeline step. -/
def soloStep : StepConfig := { name := "analyze", skill := "analyze" }

/-- A dispatcher whose every attempt succeeds at confidence 0.95. -/
def okDispatch : Dispatch :=
  fun _ _ => .ok { completed := true, confidence := 95/100, summary := "fine" }

/-- A notifier that raises on every event. -/
def raisingNotifier : Notifier := fun _ _ _ => .error "notifier exception"

/-- A second notifier that, like `nullNotifier`, always returns normally. -/
def okNotifier : Notifier := fun _ _ _ => .ok ()

end Dockcheck

set_option allowUnsafeReducibility true in
attribute [semireducible] Rat.mul Rat.add Rat.div Rat.sub Rat.inv Rat.neg

namespace Dockcheck

-- ---------------------------------------------------------------------------
-- C5
-- ---------------------------------------------------------------------------

/-- C5, counterexample: on Scenario A (analyze 0.95, test 0.92, default
weights) `ConfidenceScorer.score` returns exactly 0.9325, which is not
0.934 to the three decimal places the claim states — it is more than
0.001 away, and rounds to 932 thousandths, not 934. -/
theorem claim5_score_not_0934 :
    (score DEFAULT_WEIGHTS scenarioA).score = 373/400 ∧
    ¬ |((score DEFAULT_WEIGHTS scenarioA).score : ℚ) - 934/1000| < 1/1000 ∧
    pyRoundInt ((score DEFAULT_WEIGHTS scenarioA).score * 1000) ≠ 934 := by
  refine ⟨by decide, ?_, by decide⟩
  rw [show (score DEFAULT_WEIGHTS scenarioA).score = 373/400 from by decide]
  rw [abs_sub_comm, abs_of_nonneg (by norm_num)]
  norm_num

/-- C5, amended: on Scenario A the weighted score is exactly 0.9325
(≈ 0.933), and under the default thresholds (`auto_deploy_staging = 0.8`,
`notify_human = 0.6` below it) the orchestrator's decision for that score
is `"deploy"`. -/
theorem claim5_score_and_decision :
    (score DEFAULT_WEIGHTS scenarioA).score = 373/400 ∧
    makeDecision defaultPolicy
      { success := true
        confidence := (score DEFAULT_WEIGHTS scenarioA).score } = "deploy" := by
  constructor
  · decide
  · decide

-- ---------------------------------------------------------------------------
-- C9
-- ---------------------------------------------------------------------------

/-- C9: on a stdout whose JSON envelope carries a Markdown-fenced result
object with confidence 0.7, `_parse_claude_output` strips the fences,
parses the inner JSON and returns its fields — confidence 0.7, not the
last-resort 0.5 default. -/
theorem claim9_fenced_inner_json_parsed :
    parseClaudeOutput c9Stdout "" =
      { completed := true, confidence := 7/10, summary := "ok" } ∧
    (parseClaudeOutput c9Stdout "").confidence ≠ 1/2 := by
  constructor
  · decide
  · decide

-- ---------------------------------------------------------------------------
-- C10
-- ---------------------------------------------------------------------------

/-- C10: with no commands or file paths, circuit-breaker comparisons are
strict — the verdict is FAIL exactly when some metric strictly exceeds
its limit, and whenever every metric is at or below its limit (equality
included) the result is verdict PASS with empty reasons,
blocked_commands, blocked_paths and breaker_violations. -/
theorem claim10_breakers_strict (mg : String → String → Bool)
    (policy : Policy) (cc : ℤ) (cost : ℚ) (dep fd : ℤ) :
    ((evaluate mg policy [] [] cc cost dep fd).verdict = .fail ↔
      (cc > policy.hard_stops.circuit_breakers.max_containers ∨
       cost > policy.hard_stops.circuit_breakers.max_cost_per_run_usd ∨
       dep > policy.hard_stops.circuit_breakers.max_deploys_per_hour ∨
       fd > policy.hard_stops.circuit_breakers.max_file_deletes_per_turn)) ∧
    (evaluate mg policy [] [] cc cost dep fd = { verdict := .pass_ } ↔
      (cc ≤ policy.hard_stops.circuit_breakers.max_containers ∧
       cost ≤ policy.hard_stops.circuit_breakers.max_cost_per_run_usd ∧
       dep ≤ policy.hard_stops.circuit_breakers.max_deploys_per_hour ∧
       fd ≤ policy.hard_stops.circuit_breakers.max_file_deletes_per_turn)) := by
  simp only [evaluate, List.isEmpty_nil, if_true, List.flatMap_nil]
  split_ifs with h1 h2 h3 h4 <;>
    simp_all [EvaluationResult.mk.injEq, not_lt]

-- ---------------------------------------------------------------------------
-- C2
-- ---------------------------------------------------------------------------

/-- C2, counterexample: the pattern `"rm -rf /"` and the command
`"RM -RF /data"` match case-insensitively (their lowercasings are in the
substring relation), yet `PolicyEngine.evaluate` leaves
`blocked_commands` empty and returns verdict PASS — the hard-stop match
is case-sensitive. -/
theorem claim2_case_counterexample :
    strContains (pyLower "RM -RF /data") (pyLower "rm -rf /") = true ∧
    (evaluate (fun _ _ => false) rmrfPolicy ["RM -RF /data"] []).blocked_commands = [] ∧
    (evaluate (fun _ _ => false) rmrfPolicy ["RM -RF /data"] []).verdict = .pass_ := by
  refine ⟨by decide, by decide, by decide⟩

/-- The BLOCK/FAIL/PASS precedence chain of `evaluate`, read off as an
equation for BLOCK. -/
theorem verdict_ite_eq_block (C D : Prop) [Decidable C] [Decidable D] :
    ((if C then Verdict.block else if D then .fail else .pass_) = .block) ↔
      C := by
  split_ifs with h1 h2 <;> simp_all

/-- C2, amended: for every loaded policy, configured pattern list and
command list (no file paths), `evaluate` adds a command to
`blocked_commands` and forces verdict BLOCK exactly when some configured
pattern occurs in the command as a case-SENSITIVE substring (Python
`pattern in cmd`). -/
theorem claim2_hardstop_case_sensitive (mg : String → String → Bool)
    (policy : Policy) (commands : List String) (cmd : String)
    (cc : ℤ) (cost : ℚ) (dep fd : ℤ) :
    (cmd ∈ (evaluate mg policy commands [] cc cost dep fd).blocked_commands ↔
      cmd ∈ commands ∧
        ∃ pat ∈ policy.hard_stops.commands, strContains cmd pat = true) ∧
    ((evaluate mg policy commands [] cc cost dep fd).verdict = .block ↔
      ∃ c ∈ commands,
        ∃ pat ∈ policy.hard_stops.commands, strContains c pat = true) := by
  constructor
  · cases commands with
    | nil => simp [evaluate]
    | cons c0 cs =>
      simp only [evaluate, List.isEmpty_cons, Bool.false_eq_true, if_false]
      simp [List.mem_flatMap, List.mem_map, List.mem_filter]
      aesop
  · cases commands with
    | nil =>
      simp only [evaluate, List.isEmpty_nil, if_true]
      rw [verdict_ite_eq_block]
      simp
    | cons c0 cs =>
      simp only [evaluate, List.isEmpty_cons, Bool.false_eq_true, if_false]
      rw [verdict_ite_eq_block]
      constructor
      · rintro (hC | hC)
        · simp only [List.isEmpty_eq_true, List.map_eq_nil_iff] at hC
          obtain ⟨x, hx⟩ := List.exists_mem_of_ne_nil _ hC
          obtain ⟨c, hc, hx2⟩ := List.mem_flatMap.1 hx
          obtain ⟨pat, hpat, rfl⟩ := List.mem_map.1 hx2
          obtain ⟨hpat1, hpat2⟩ := List.mem_filter.1 hpat
          exact ⟨c, hc, pat, hpat1, hpat2⟩
        · simp at hC
      · rintro ⟨c, hc, pat, hpat, hm⟩
        left
        simp only [List.isEmpty_eq_true, List.map_eq_nil_iff]
        intro hEmpty
        have hmem : (c, pat) ∈ (c0 :: cs).flatMap fun cmd =>
            (policy.hard_stops.commands.filter fun pat =>
              strContains cmd pat).map fun pat => (cmd, pat) :=
          List.mem_flatMap.2 ⟨c, hc, List.mem_map.2
            ⟨pat, List.mem_filter.2 ⟨hpat, by simp [hm]⟩, rfl⟩⟩
        rw [hEmpty] at hmem
        cases hmem

-- ---------------------------------------------------------------------------
-- C3
-- ---------------------------------------------------------------------------

/-- The finding-flag fold raises `has_critical` exactly when the input
flag was set or some finding is critical. -/
theorem foldl_applyFinding_has_critical (fs : List CoreFinding)
    (st : ScanState) :
    (fs.foldl applyFinding st).has_critical =
      (st.has_critical || fs.any fun f => decide (f.severity = "critical")) := by
  induction fs generalizing st with
  | nil => simp
  | cons f fs ih =>
    simp only [List.foldl_cons, List.any_cons, ih, applyFinding]
    by_cases h1 : f.severity = "critical" <;>
      by_cases h2 : f.severity = "error" <;>
        simp [h1, h2, Bool.or_assoc]

/-- The scan loop of `ConfidenceScorer.score` reports `has_critical`
exactly when some step result carries a critical-severity finding. -/
theorem scan_has_critical (results : List AgentStepResult) :
    (scan results).has_critical =
      results.any fun r =>
        r.findings.any fun f => decide (f.severity = "critical") := by
  suffices h : ∀ st : ScanState, (results.foldl scanStep st).has_critical =
      (st.has_critical || results.any fun r =>
        r.findings.any fun f => decide (f.severity = "critical")) by
    simpa [scan] using h {}
  induction results with
  | nil => simp
  | cons r rs ih =>
    intro st
    simp only [List.foldl_cons, List.any_cons, ih]
    simp only [scanStep, foldl_applyFinding_has_critical]
    by_cases hc : ¬ r.completed <;> simp [hc, Bool.or_assoc]

/-- C3: any critical finding anywhere in a non-empty result list makes
`ConfidenceScorer.score` return 0.0 outright, whatever the confidences,
weights, completion flags or other findings are. -/
theorem claim3_critical_zeroes_score (weights : List (String × ℚ))
    (results : List AgentStepResult) (h1 : results ≠ [])
    (h2 : ∃ r ∈ results, ∃ f ∈ r.findings, f.severity = "critical") :
    (score weights results).score = 0 := by
  have hc : (scan results).has_critical = true := by
    rw [scan_has_critical]
    simp only [List.any_eq_true]
    obtain ⟨r, hr, f, hf, hsev⟩ := h2
    exact ⟨r, hr, f, hf, by simp [hsev]⟩
  simp only [score]
  rw [if_neg (by simpa [List.isEmpty_eq_true] using h1)]
  simp [hc]

/-- C3 witness: a concrete two-step list with one critical finding in the
second step scores 0.0. -/
theorem claim3_witness :
    (score DEFAULT_WEIGHTS
      [{ step := "analyze", completed := true, confidence := 95/100 },
       { step := "security", completed := true, confidence := 9/10,
         findings := [{ severity := "critical", message := "hardcoded key" }] }]).score
      = 0 :=
  claim3_critical_zeroes_score DEFAULT_WEIGHTS _ (by decide) (by decide)

-- ---------------------------------------------------------------------------
-- C7
-- ---------------------------------------------------------------------------

/-- A `ParallelResult` always carries its own task's id. -/
theorem runTask_task_id (d : ParallelTask → Except String AgentResult)
    (e : ParallelTask → ℚ) (t : ParallelTask) :
    (runTask d e t).task_id = t.task_id := by
  cases h : d t <;> simp [runTask, h]

/-- A `ParallelResult` records the raised error, and none on success. -/
theorem runTask_error (d : ParallelTask → Except String AgentResult)
    (e : ParallelTask → ℚ) (t : ParallelTask) :
    (runTask d e t).error =
      (match d t with | .ok _ => none | .error err => some err) := by
  cases h : d t <;> simp [runTask, h]

/-- `filter` after `map`, as one `map` of a `filter`. -/
theorem map_filter_comm {α β : Type} (f : α → β) (p : β → Bool)
    (l : List α) :
    (l.map f).filter p = (l.filter fun a => p (f a)).map f := by
  induction l with
  | nil => rfl
  | cons a l ih =>
    by_cases h : p (f a) <;> simp [h, ih]

/-- The three fan-out tasks of Scenario F. -/
def c7Tasks : List ParallelTask :=
  [{ task_id := "t1", prompt := "a" },
   { task_id := "t2", prompt := "b" },
   { task_id := "t3", prompt := "c" }]

/-- A dispatcher raising on the second Scenario F task only. -/
def c7Dispatch : ParallelTask → Except String AgentResult := fun t =>
  if t.task_id = "t2" then .error "subprocess exploded"
  else .ok { completed := true, confidence := 9/10 }

/-- C7: `fan_out` returns one result per input task in input-task order;
every raising task's id is listed in `failed_tasks` (in input order) with
its error captured on that task's result, and `all_completed` is false
whenever some task failed.  In particular, for three tasks whose second
raises, the failed list is exactly `["t2"]`, `all_completed` is false,
and the three results keep input order. -/
theorem claim7_fanout_isolation
    (dispatch : ParallelTask → Except String AgentResult)
    (elapsed : ParallelTask → ℚ) (total : ℚ) (tasks : List ParallelTask) :
    ((fanOut dispatch elapsed total tasks).results.map (·.task_id) =
      tasks.map (·.task_id)) ∧
    ((fanOut dispatch elapsed total tasks).failed_tasks =
      (tasks.filter fun t =>
        match dispatch t with | .error _ => true | .ok _ => false).map
          (·.task_id)) ∧
    (∀ t ∈ tasks, ∀ e, dispatch t = .error e →
      ∃ r ∈ (fanOut dispatch elapsed total tasks).results,
        r.task_id = t.task_id ∧ r.error = some e) ∧
    ((fanOut dispatch elapsed total tasks).failed_tasks ≠ [] →
      (fanOut dispatch elapsed total tasks).all_completed = false) ∧
    ((fanOut c7Dispatch (fun _ => 0) 0 c7Tasks).results.map (·.task_id) =
      ["t1", "t2", "t3"]) ∧
    (fanOut c7Dispatch (fun _ => 0) 0 c7Tasks).failed_tasks = ["t2"] ∧
    (fanOut c7Dispatch (fun _ => 0) 0 c7Tasks).all_completed = false := by
  refine ⟨?_, ?_, ?_, ?_, by decide, by decide, by decide⟩
  · simp [fanOut, runTask_task_id]
  · show ((List.map (runTask dispatch elapsed) tasks).filter
        (fun r => r.error ≠ none)).map (·.task_id) = _
    induction tasks with
    | nil => rfl
    | cons t ts ih =>
      cases h : dispatch t with
      | ok v => simpa [runTask, h] using ih
      | error err => simpa [runTask, h] using ih
  · intro t ht e he
    refine ⟨runTask dispatch elapsed t, ?_, runTask_task_id .., ?_⟩
    · simp [fanOut]
      exact ⟨t, ht, rfl⟩
    · rw [runTask_error, he]
  · intro hne
    simp only [fanOut] at hne ⊢
    simp only [Bool.and_eq_false_iff]
    right
    simpa [List.isEmpty_eq_true] using hne

-- ---------------------------------------------------------------------------
-- C6
-- ---------------------------------------------------------------------------

/-- Invariant-carrying specification of the retry loop: starting from a
state where `result` is the outcome of attempt `attempts - 1`, all
earlier attempts requested retry, at most `maxRetries + 1` attempts are
ever reached, and the fuel dominates the remaining budget, the loop ends
on the final attempt's result, having redispatched only on retry. -/
theorem retryGo_spec (maxRetries : ℕ) (exec : ℕ → AgentResult) :
    ∀ (fuel attempts : ℕ) (result : AgentResult),
      result = exec (attempts - 1) →
      1 ≤ attempts →
      (∀ i, i + 1 < attempts → (exec i).action_needed = some .retry) →
      attempts ≤ maxRetries + 1 →
      maxRetries + 2 ≤ fuel + attempts →
      1 ≤ (retryGo maxRetries exec fuel attempts result).2 ∧
      (retryGo maxRetries exec fuel attempts result).2 ≤ maxRetries + 1 ∧
      (retryGo maxRetries exec fuel attempts result).1 =
        exec ((retryGo maxRetries exec fuel attempts result).2 - 1) ∧
      (∀ i, i + 1 < (retryGo maxRetries exec fuel attempts result).2 →
        (exec i).action_needed = some .retry) ∧
      ((exec ((retryGo maxRetries exec fuel attempts result).2 - 1)).action_needed
          = some .retry →
        (retryGo maxRetries exec fuel attempts result).2 = maxRetries + 1) := by
  intro fuel
  induction fuel with
  | zero =>
    intro attempts result h1 h2 h3 h4 h5
    omega
  | succ fuel ih =>
    intro attempts result h1 h2 h3 h4 h5
    simp only [retryGo]
    by_cases hcond : result.action_needed = some ActionLit.retry ∧
      attempts ≤ maxRetries
    · rw [if_pos hcond]
      apply ih (attempts + 1) (exec attempts) (by simp) (by omega) ?_
        (by omega) (by omega)
      intro i hi
      rcases Nat.lt_or_ge (i + 1) attempts with h | h
      · exact h3 i h
      · have hieq : exec i = result := by
          rw [h1]
          congr 1
          omega
        rw [hieq]
        exact hcond.1
    · rw [if_neg hcond]
      refine ⟨h2, h4, h1, h3, ?_⟩
      intro hret
      rw [← h1] at hret
      have : ¬ attempts ≤ maxRetries := fun hle => hcond ⟨hret, hle⟩
      omega

/-- C6: `_execute_step_with_retry` makes at least one and at most
`1 + max_retries` dispatches; the recorded result is the final attempt's;
every attempt that was followed by another had requested retry (so a
`"none"`/`"escalate"` result is never redispatched, and each redispatch
reuses the same step parameters — `exec` is one fixed function of the
attempt index); and the loop only stops on a retry-requesting result when
the full budget is spent. -/
theorem claim6_retry_budget (maxRetries : ℕ) (exec : ℕ → AgentResult) :
    1 ≤ (executeStepWithRetry maxRetries exec).2 ∧
    (executeStepWithRetry maxRetries exec).2 ≤ maxRetries + 1 ∧
    (executeStepWithRetry maxRetries exec).1 =
      exec ((executeStepWithRetry maxRetries exec).2 - 1) ∧
    (∀ i, i + 1 < (executeStepWithRetry maxRetries exec).2 →
      (exec i).action_needed = some .retry) ∧
    ((exec ((executeStepWithRetry maxRetries exec).2 - 1)).action_needed =
        some .retry →
      (executeStepWithRetry maxRetries exec).2 = maxRetries + 1) := by
  have h := retryGo_spec maxRetries exec (maxRetries + 1) 1 (exec 0) rfl
    (le_refl 1) (fun i hi => absurd hi (by omega)) (by omega) (by omega)
  simpa [executeStepWithRetry] using h

-- ---------------------------------------------------------------------------
-- C4
-- ---------------------------------------------------------------------------

/-- Removing the elements that satisfy `p` strictly shrinks a list that
contains one. -/
theorem length_filter_not_lt {α : Type} (p : α → Bool) (l : List α)
    (x : α) (hx : x ∈ l) (hpx : p x = true) :
    (l.filter fun a => ! p a).length < l.length := by
  induction l with
  | nil => cases hx
  | cons a l ih =>
    by_cases hpa : p a = true
    · simp only [List.filter_cons, hpa, Bool.not_true]
      exact Nat.lt_succ_of_le (List.length_filter_le _ _)
    · rcases List.mem_cons.1 hx with rfl | hx2
      · exact absurd hpx hpa
      · simp only [List.filter_cons, Bool.not_eq_true] at hpa ⊢
        rw [hpa]
        simpa using ih hx2

/-- On success, the concatenation of the layers produced by the
resolution loop is a permutation of the remaining steps. -/
theorem resolveLoop_ok_perm :
    ∀ (fuel : ℕ) (completed : List String) (remaining : List StepConfig)
      (layers : List (List StepConfig)),
      resolveLoop fuel completed remaining = .ok layers →
      layers.join.Perm remaining := by
  intro fuel
  induction fuel with
  | zero =>
    intro completed remaining layers h
    cases remaining with
    | nil =>
      simp only [resolveLoop, Except.ok.injEq] at h
      subst h
      simp
    | cons s rest => simp [resolveLoop] at h
  | succ fuel ih =>
    intro completed remaining layers h
    cases remaining with
    | nil =>
      simp only [resolveLoop, Except.ok.injEq] at h
      subst h
      simp
    | cons s rest =>
      rw [resolveLoop] at h
      case x_3 => simp
      split at h
      · cases h
      · split at h
        next layers' hrec =>
          simp only [Except.ok.injEq] at h
          subst h
          simp only [List.join_cons]
          exact ((ih _ _ _ hrec).append_left _).trans
            (List.filter_append_perm _ _)
        next e hrec => cases h

/-- On success, every dependency of a step placed in some layer is
already satisfied: its name was completed before the loop ran, or it
names a step in a strictly earlier layer. -/
theorem resolveLoop_ok_deps :
    ∀ (fuel : ℕ) (completed : List String) (remaining : List StepConfig)
      (layers : List (List StepConfig)),
      resolveLoop fuel completed remaining = .ok layers →
      ∀ i, ∀ s ∈ layers.getD i [], ∀ d ∈ s.depends_on,
        d ∈ completed ∨ d ∈ ((layers.take i).join.map (·.name)) := by
  intro fuel
  induction fuel with
  | zero =>
    intro completed remaining layers h
    cases remaining with
    | nil =>
      simp only [resolveLoop, Except.ok.injEq] at h
      subst h
      simp
    | cons s rest => simp [resolveLoop] at h
  | succ fuel ih =>
    intro completed remaining layers h
    cases remaining with
    | nil =>
      simp only [resolveLoop, Except.ok.injEq] at h
      subst h
      simp
    | cons s0 rest =>
      rw [resolveLoop] at h
      case x_3 => simp
      split at h
      · cases h
      · split at h
        next layers' hrec =>
          simp only [Except.ok.injEq] at h
          subst h
          intro i
          cases i with
          | zero =>
            intro s hs d hd
            left
            have := (List.mem_filter.1 hs).2
            rw [List.all_eq_true] at this
            have hc := this d hd
            simpa using hc
          | succ i =>
            intro s hs d hd
            simp only [List.getD] at hs ⊢
            have hih := ih _ _ _ hrec i s (by simpa using hs) d hd
            rcases hih with hih | hih
            · rcases List.mem_append.1 hih with hih | hih
              · exact Or.inl hih
              · right
                simp only [List.take_succ_cons, List.join_cons, List.map_append]
                exact List.mem_append.2 (Or.inl hih)
            · right
              simp only [List.take_succ_cons, List.join_cons, List.map_append]
              exact List.mem_append.2 (Or.inr hih)
        next e hrec => cases h

/-- For a pipeline whose resolution succeeds and whose step names are
unique, the returned layers are a permutation of the steps with every
step occurring exactly once across all layers; every dependency of a
step in layer `i` names a step in a strictly earlier layer; and layer 0
is exactly the steps with no dependencies. -/
theorem resolve_ok_layering (steps : List StepConfig)
    (layers : List (List StepConfig))
    (hnodup : (steps.map (·.name)).Nodup)
    (h : resolveDependencies steps = .ok layers) :
    layers.join.Perm steps ∧
    (∀ s ∈ steps, layers.join.count s = 1) ∧
    (∀ i, ∀ s ∈ layers.getD i [], ∀ d ∈ s.depends_on,
      d ∈ ((layers.take i).join.map (·.name))) ∧
    layers.getD 0 [] = steps.filter fun s => s.depends_on.isEmpty := by
  have hloop : resolveLoop steps.length [] steps = .ok layers := by
    unfold resolveDependencies at h
    cases hfu : firstUnknownDep steps with
    | none => rwa [hfu] at h
    | some v => rw [hfu] at h; cases h
  have hperm := resolveLoop_ok_perm _ _ _ _ hloop
  refine ⟨hperm, ?_, ?_, ?_⟩
  · intro s hs
    rw [hperm.count_eq]
    exact List.count_eq_one_of_mem (List.Nodup.of_map _ hnodup) hs
  · intro i s hs d hd
    rcases resolveLoop_ok_deps _ _ _ _ hloop i s hs d hd with hin | hin
    · cases hin
    · exact hin
  · cases hsteps : steps with
    | nil =>
      rw [hsteps] at hloop
      simp only [resolveLoop, Except.ok.injEq] at hloop
      subst hloop
      simp
    | cons s0 rest =>
      rw [hsteps] at hloop
      simp only [List.length_cons] at hloop
      rw [resolveLoop] at hloop
      case x_3 => simp
      split at hloop
      · cases hloop
      · split at hloop
        next layers' hrec =>
          simp only [Except.ok.injEq] at hloop
          subst hloop
          simp only [List.getD]
          apply List.filter_congr
          intro x _
          cases x.depends_on with
          | nil => simp
          | cons d ds => simp [List.all_cons]
        next e hrec => cases hloop

-- ---------------------------------------------------------------------------
-- C8
-- ---------------------------------------------------------------------------

/-- A witness of a dependency cycle: a non-empty set of step names, each
naming a pipeline step, such that every step it names has some
dependency inside the set.  No such step can ever become ready, so this
is exactly what makes the iterative resolver stall. -/
def CyclicSet (steps : List StepConfig) (S : List String) : Prop :=
  S ≠ [] ∧ (∀ n ∈ S, ∃ s ∈ steps, s.name = n) ∧
    (∀ s ∈ steps, s.name ∈ S → ∃ d ∈ s.depends_on, d ∈ S)

instance (steps : List StepConfig) (S : List String) :
    Decidable (CyclicSet steps S) := by
  unfold CyclicSet
  infer_instance

/-- A passed dependency pre-validation means every `depends_on` entry
names a known step. -/
theorem firstUnknownDep_none (steps : List StepConfig)
    (h : firstUnknownDep steps = none) :
    ∀ s ∈ steps, ∀ d ∈ s.depends_on, d ∈ steps.map (·.name) := by
  intro s hs d hd
  unfold firstUnknownDep at h
  rw [List.findSome?_eq_none_iff] at h
  have hstep := h s hs
  rw [Option.map_eq_none'] at hstep
  rw [List.find?_eq_none] at hstep
  have := hstep d hd
  simpa using this

/-- One peeling round of the resolution loop preserves the three loop
invariants: the remainder is still a sub-multiset of the pipeline, the
completed-name set is exactly the placed steps, and no member of a
cyclic set ever gets completed. -/
theorem resolveLoop_inv_step (steps : List StepConfig)
    (hnodup : (steps.map (·.name)).Nodup)
    (completed : List String) (remaining : List StepConfig)
    (hsub : remaining ⊆ steps)
    (hb : ∀ s ∈ steps, (s.name ∈ completed ↔ s ∉ remaining))
    (hc : ∀ S, CyclicSet steps S → ∀ n ∈ S, n ∉ completed) :
    ((remaining.filter fun s =>
        ! (s.depends_on.all fun d => completed.contains d)) ⊆ steps) ∧
    (∀ s ∈ steps,
      (s.name ∈ completed ++
          ((remaining.filter fun s =>
            s.depends_on.all fun d => completed.contains d).map (·.name)) ↔
        s ∉ remaining.filter fun s =>
          ! (s.depends_on.all fun d => completed.contains d))) ∧
    (∀ S, CyclicSet steps S → ∀ n ∈ S,
      n ∉ completed ++
        ((remaining.filter fun s =>
          s.depends_on.all fun d => completed.contains d).map (·.name))) := by
  refine ⟨fun x hx => hsub (List.mem_filter.1 hx).1, ?_, ?_⟩
  · intro s hs
    constructor
    · intro hin hmem
      rcases List.mem_append.1 hin with hin | hin
      · exact ((hb s hs).1 hin) (List.mem_filter.1 hmem).1
      · obtain ⟨t, ht, htn⟩ := List.mem_map.1 hin
        have ht1 := List.mem_filter.1 ht
        have heq : t = s :=
          List.inj_on_of_nodup_map hnodup (hsub ht1.1) hs htn
        subst heq
        have hfalse := (List.mem_filter.1 hmem).2
        rw [ht1.2] at hfalse
        cases hfalse
    · intro hnot
      by_cases hrem : s ∈ remaining
      · have hp : (s.depends_on.all fun d => completed.contains d) = true := by
          by_contra hps
          rw [Bool.not_eq_true] at hps
          exact hnot (List.mem_filter.2 ⟨hrem, by rw [hps]; rfl⟩)
        exact List.mem_append.2 (Or.inr (List.mem_map.2
          ⟨s, List.mem_filter.2 ⟨hrem, hp⟩, rfl⟩))
      · exact List.mem_append.2 (Or.inl ((hb s hs).2 hrem))
  · intro S hS n hn hin
    rcases List.mem_append.1 hin with hin | hin
    · exact hc S hS n hn hin
    · obtain ⟨t, ht, htn⟩ := List.mem_map.1 hin
      have ht1 := List.mem_filter.1 ht
      obtain ⟨d, hd, hdS⟩ := hS.2.2 t (hsub ht1.1) (htn ▸ hn)
      have hall := ht1.2
      rw [List.all_eq_true] at hall
      have hdc := hall d hd
      exact hc S hS d hdS (by simpa using hdc)

/-- If the resolution loop fails while the invariants hold, the error is
the cyclic-dependency message, and it names a non-empty stuck subset of
the pipeline in which every named step has a dependency on a named step,
and which contains every cyclic set. -/
theorem resolveLoop_error_spec (steps : List StepConfig)
    (hnodup : (steps.map (·.name)).Nodup)
    (hdeps : ∀ s ∈ steps, ∀ d ∈ s.depends_on, d ∈ steps.map (·.name)) :
    ∀ (fuel : ℕ) (completed : List String) (remaining : List StepConfig)
      (msg : String),
      remaining ⊆ steps →
      (∀ s ∈ steps, (s.name ∈ completed ↔ s ∉ remaining)) →
      (∀ S, CyclicSet steps S → ∀ n ∈ S, n ∉ completed) →
      remaining.length ≤ fuel →
      resolveLoop fuel completed remaining = .error msg →
      ∃ R : List StepConfig,
        msg = cycleMessage (R.map (·.name)) ∧ R ≠ [] ∧ R ⊆ steps ∧
        (∀ s ∈ R, ∃ d ∈ s.depends_on, d ∈ R.map (·.name)) ∧
        (∀ S, CyclicSet steps S → ∀ n ∈ S, n ∈ R.map (·.name)) := by
  intro fuel
  induction fuel with
  | zero =>
    intro completed remaining msg hsub hb hc hlen h
    cases remaining with
    | nil => simp [resolveLoop] at h
    | cons s rest => simp at hlen
  | succ fuel ih =>
    intro completed remaining msg hsub hb hc hlen h
    cases remaining with
    | nil => simp [resolveLoop] at h
    | cons s0 rest =>
      rw [resolveLoop] at h
      case x_3 => simp
      split at h
      next hready =>
        refine ⟨s0 :: rest, by simpa using h.symm, by simp, hsub, ?_, ?_⟩
        · intro s hsrem
          have hnp : ¬ ((s.depends_on.all fun d => completed.contains d) = true) := by
            intro hp
            rw [List.isEmpty_eq_true, List.filter_eq_nil_iff] at hready
            exact hready s hsrem hp
          rw [List.all_eq_true] at hnp
          push_neg at hnp
          obtain ⟨d, hd, hdc⟩ := hnp
          refine ⟨d, hd, ?_⟩
          have hdn : d ∉ completed := by simpa using hdc
          obtain ⟨t, ht, htn⟩ := by
            simpa [List.mem_map] using hdeps s (hsub hsrem) d hd
          have : t ∈ s0 :: rest := by
            by_contra hnot
            exact hdn (htn ▸ (hb t ht).2 hnot)
          exact List.mem_map.2 ⟨t, this, htn⟩
        · intro S hS n hn
          obtain ⟨t, ht, htn⟩ := hS.2.1 n hn
          have hnc : n ∉ completed := hc S hS n hn
          have : t ∈ s0 :: rest := by
            by_contra hnot
            exact hnc (htn ▸ (hb t ht).2 hnot)
          exact List.mem_map.2 ⟨t, this, htn⟩
      next hready =>
        split at h
        next layers' hrec => cases h
        next e hrec =>
          simp only [Except.error.injEq] at h
          subst h
          obtain ⟨hsub2, hb2, hc2⟩ :=
            resolveLoop_inv_step steps hnodup completed (s0 :: rest) hsub hb hc
          have hlen2 : (List.filter (fun s =>
              ! (s.depends_on.all fun d => completed.contains d))
                (s0 :: rest)).length ≤ fuel := by
            simp only [List.isEmpty_eq_true] at hready
            obtain ⟨x, hx⟩ := List.exists_mem_of_ne_nil _ hready
            have hx1 := List.mem_filter.1 hx
            have key : (List.filter (fun s =>
                ! (s.depends_on.all fun d => completed.contains d))
                  (s0 :: rest)).length < (s0 :: rest).length := by
              simpa using length_filter_not_lt
                (fun s => s.depends_on.all fun d => completed.contains d)
                (s0 :: rest) x hx1.1 hx1.2
            omega
          exact ih _ _ _ hsub2 hb2 hc2 hlen2 hrec

/-- If the loop succeeds while the invariants hold, no cyclic set can
exist. -/
theorem resolveLoop_ok_no_cyclic (steps : List StepConfig)
    (hnodup : (steps.map (·.name)).Nodup) :
    ∀ (fuel : ℕ) (completed : List String) (remaining : List StepConfig)
      (layers : List (List StepConfig)),
      remaining ⊆ steps →
      (∀ s ∈ steps, (s.name ∈ completed ↔ s ∉ remaining)) →
      (∀ S, CyclicSet steps S → ∀ n ∈ S, n ∉ completed) →
      resolveLoop fuel completed remaining = .ok layers →
      ∀ S, ¬ CyclicSet steps S := by
  intro fuel
  induction fuel with
  | zero =>
    intro completed remaining layers hsub hb hc h S hS
    cases remaining with
    | nil =>
      obtain ⟨n, hn⟩ := List.exists_mem_of_ne_nil _ hS.1
      obtain ⟨t, ht, htn⟩ := hS.2.1 n hn
      exact hc S hS n hn (htn ▸ (hb t ht).2 (by simp))
    | cons s0 rest => simp [resolveLoop] at h
  | succ fuel ih =>
    intro completed remaining layers hsub hb hc h S hS
    cases remaining with
    | nil =>
      obtain ⟨n, hn⟩ := List.exists_mem_of_ne_nil _ hS.1
      obtain ⟨t, ht, htn⟩ := hS.2.1 n hn
      exact hc S hS n hn (htn ▸ (hb t ht).2 (by simp))
    | cons s0 rest =>
      rw [resolveLoop] at h
      case x_3 => simp
      split at h
      next hready => cases h
      next hready =>
        split at h
        next layers' hrec =>
          obtain ⟨hsub2, hb2, hc2⟩ :=
            resolveLoop_inv_step steps hnodup completed (s0 :: rest) hsub hb hc
          exact ih _ _ _ hsub2 hb2 hc2 hrec S hS
        next e hrec => cases h

/-- C4: for every pipeline whose step names are unique, whose
`depends_on` references all resolve, and which is acyclic (no non-empty
name set is dependency-closed into itself), dependency resolution
returns a layer list in which the layers are a permutation of the steps
with every step occurring exactly once across all layers; every
dependency of a step in layer `i` names a step in a strictly earlier
layer; and layer 0 is exactly the steps with no dependencies. -/
theorem claim4_layering (steps : List StepConfig)
    (hnodup : (steps.map (·.name)).Nodup)
    (hvalid : firstUnknownDep steps = none)
    (hacyclic : ∀ S, ¬ CyclicSet steps S) :
    ∃ layers : List (List StepConfig),
      resolveDependencies steps = .ok layers ∧
      layers.join.Perm steps ∧
      (∀ s ∈ steps, layers.join.count s = 1) ∧
      (∀ i, ∀ s ∈ layers.getD i [], ∀ d ∈ s.depends_on,
        d ∈ ((layers.take i).join.map (·.name))) ∧
      layers.getD 0 [] = steps.filter fun s => s.depends_on.isEmpty := by
  have hb0 : ∀ s ∈ steps, (s.name ∈ ([] : List String) ↔ s ∉ steps) := by
    intro s hs
    simp [hs]
  have hc0 : ∀ S, CyclicSet steps S → ∀ n ∈ S, n ∉ ([] : List String) := by
    intro S _ n _
    simp
  cases hloop : resolveLoop steps.length [] steps with
  | error msg =>
    obtain ⟨R, hmsg, hne, hsubR, hstuck, _⟩ :=
      resolveLoop_error_spec steps hnodup (firstUnknownDep_none steps hvalid)
        _ _ _ _ (fun x hx => hx) hb0 hc0 (le_refl _) hloop
    refine absurd ⟨?_, ?_, ?_⟩ (hacyclic (R.map (·.name)))
    · intro hmapnil
      exact hne (List.map_eq_nil_iff.1 hmapnil)
    · intro n hn
      obtain ⟨t, ht, htn⟩ := List.mem_map.1 hn
      exact ⟨t, hsubR ht, htn⟩
    · intro s hs hsn
      obtain ⟨t, ht, htn⟩ := List.mem_map.1 hsn
      have heq : t = s :=
        List.inj_on_of_nodup_map hnodup (hsubR ht) hs htn
      subst heq
      exact hstuck t ht
  | ok layers =>
    have hres : resolveDependencies steps = .ok layers := by
      unfold resolveDependencies
      rw [hvalid, hloop]
    exact ⟨layers, hres, resolve_ok_layering steps layers hnodup hres⟩

/-- The three-step pipeline used to witness C4. -/
def c4Steps : List StepConfig :=
  [{ name := "analyze", skill := "analyze" },
   { name := "test", skill := "test", depends_on := ["analyze"] },
   { name := "security", skill := "security", depends_on := ["analyze"] }]

/-- C4 witness: the layering properties at a concrete diamond-free
three-step pipeline. -/
theorem claim4_witness :
    ∃ layers : List (List StepConfig),
      resolveDependencies c4Steps = .ok layers ∧
      layers.join.Perm c4Steps ∧
      (∀ s ∈ c4Steps, layers.join.count s = 1) ∧
      (∀ i, ∀ s ∈ layers.getD i [], ∀ d ∈ s.depends_on,
        d ∈ ((layers.take i).join.map (·.name))) ∧
      layers.getD 0 [] = c4Steps.filter fun s => s.depends_on.isEmpty :=
  claim4_layering c4Steps (by decide) (by decide) (by
    rintro S ⟨hne, hnames, hclosed⟩
    obtain ⟨n, hn⟩ := List.exists_mem_of_ne_nil _ hne
    obtain ⟨s, hs, rfl⟩ := hnames n hn
    have hana : "analyze" ∈ S := by
      simp only [c4Steps, List.mem_cons, List.not_mem_nil, or_false] at hs
      rcases hs with rfl | rfl | rfl
      · exact hn
      · obtain ⟨d, hd, hdS⟩ := hclosed _ (by simp [c4Steps]) hn
        simp only [List.mem_cons, List.not_mem_nil, or_false] at hd
        rwa [hd] at hdS
      · obtain ⟨d, hd, hdS⟩ := hclosed _ (by simp [c4Steps]) hn
        simp only [List.mem_cons, List.not_mem_nil, or_false] at hd
        rwa [hd] at hdS
    obtain ⟨d, hd, _⟩ := hclosed { name := "analyze", skill := "analyze" }
      (by simp [c4Steps]) hana
    simp at hd)

/-- C8: a pipeline whose dependency names all resolve but which contains
a cycle makes `_resolve_dependencies` raise the cyclic-dependency
`ValueError`; the message names exactly the un-placeable steps — a
non-empty stuck set in which every named step depends on a named step
(nothing placeable is named) and which subsumes every cyclic set
(nothing un-placeable is omitted) — and `run_pipeline` propagates that
error before any step executes, so no step result is produced. -/
theorem claim8_cycle_fails_before_execution (steps : List StepConfig)
    (hnodup : (steps.map (·.name)).Nodup)
    (hvalid : firstUnknownDep steps = none)
    (hcyc : ∃ S, CyclicSet steps S) :
    ∃ R : List StepConfig,
      R ≠ [] ∧ R ⊆ steps ∧
      resolveDependencies steps = .error (cycleMessage (R.map (·.name))) ∧
      (∀ s ∈ R, ∃ d ∈ s.depends_on, d ∈ R.map (·.name)) ∧
      (∀ S, CyclicSet steps S → ∀ n ∈ S, n ∈ R.map (·.name)) ∧
      (∀ (mg : String → String → Bool) (policy : Policy)
        (weights : List (String × ℚ)) (mr : ℕ) (notifier : Notifier)
        (dispatch : Dispatch) (ctx : Context),
        runPipeline mg policy weights mr notifier dispatch steps ctx =
          .error (cycleMessage (R.map (·.name)))) := by
  obtain ⟨S0, hS0⟩ := hcyc
  have hb0 : ∀ s ∈ steps, (s.name ∈ ([] : List String) ↔ s ∉ steps) := by
    intro s hs
    simp [hs]
  have hc0 : ∀ S, CyclicSet steps S → ∀ n ∈ S, n ∉ ([] : List String) := by
    intro S _ n _
    simp
  cases hloop : resolveLoop steps.length [] steps with
  | ok layers =>
    exact absurd hS0 (resolveLoop_ok_no_cyclic steps hnodup _ _ _ _
      (fun x hx => hx) hb0 hc0 hloop S0)
  | error msg =>
    obtain ⟨R, hmsg, hne, hsubR, hstuck, hcomplete⟩ :=
      resolveLoop_error_spec steps hnodup (firstUnknownDep_none steps hvalid)
        _ _ _ _ (fun x hx => hx) hb0 hc0 (le_refl _) hloop
    have hres : resolveDependencies steps =
        .error (cycleMessage (R.map (·.name))) := by
      unfold resolveDependencies
      rw [hvalid, hloop, hmsg]
    refine ⟨R, hne, hsubR, hres, hstuck, hcomplete, ?_⟩
    intro mg policy weights mr notifier dispatch ctx
    unfold runPipeline
    rw [hres]

/-- The two-step cyclic pipeline used to witness C8. -/
def c8Steps : List StepConfig :=
  [{ name := "build", skill := "build", depends_on := ["deploy"] },
   { name := "deploy", skill := "deploy", depends_on := ["build"] }]

/-- C8 witness: the cyclic-failure properties at a concrete two-step
cycle. -/
theorem claim8_witness :
    ∃ R : List StepConfig,
      R ≠ [] ∧ R ⊆ c8Steps ∧
      resolveDependencies c8Steps = .error (cycleMessage (R.map (·.name))) ∧
      (∀ s ∈ R, ∃ d ∈ s.depends_on, d ∈ R.map (·.name)) ∧
      (∀ S, CyclicSet c8Steps S → ∀ n ∈ S, n ∈ R.map (·.name)) ∧
      (∀ (mg : String → String → Bool) (policy : Policy)
        (weights : List (String × ℚ)) (mr : ℕ) (notifier : Notifier)
        (dispatch : Dispatch) (ctx : Context),
        runPipeline mg policy weights mr notifier dispatch c8Steps ctx =
          .error (cycleMessage (R.map (·.name)))) :=
  claim8_cycle_fails_before_execution c8Steps (by decide) (by decide)
    ⟨["build", "deploy"], by decide⟩

-- ---------------------------------------------------------------------------
-- C1
-- ---------------------------------------------------------------------------

/-- C1, counterexample: on a one-step pipeline that reaches the deploy
event, a notifier whose `notify` raises makes `run_pipeline` propagate
the exception — no `PipelineResult` is returned — while the same pipeline
under a non-raising notifier returns a normal successful result. -/
theorem claim1_raising_notifier_counterexample :
    runPipeline (fun _ _ => false) defaultPolicy DEFAULT_WEIGHTS 1
      raisingNotifier okDispatch [soloStep] {} = .error "notifier exception" ∧
    runPipeline (fun _ _ => false) defaultPolicy DEFAULT_WEIGHTS 1
      nullNotifier okDispatch [soloStep] {} =
      .ok { success := true
            confidence := 95/100
            step_results := [("analyze",
              { completed := true, confidence := 95/100, summary := "fine" })]
            blocked := false
            block_reasons := [] } := by
  refine ⟨by decide, by decide⟩

/-- The group loop of `run_pipeline` gives equal outcomes under any two
never-raising notifiers. -/
theorem runGroups_notifier_congr (mg : String → String → Bool)
    (policy : Policy) (weights : List (String × ℚ)) (mr : ℕ)
    (dispatch : Dispatch) (ctx : Context) (n₁ n₂ : Notifier)
    (h₁ : ∀ e m c, n₁ e m c = .ok ()) (h₂ : ∀ e m c, n₂ e m c = .ok ()) :
    ∀ (groups : List (List StepConfig))
      (sr : List (String × AgentResult)) (br : List String),
      runGroups mg policy weights mr n₁ dispatch ctx groups sr br =
        runGroups mg policy weights mr n₂ dispatch ctx groups sr br := by
  intro groups
  induction groups with
  | nil => intro sr br; rfl
  | cons group rest ih =>
    intro sr br
    rcases group with _ | ⟨step, _ | ⟨s2, gs⟩⟩
    · simp only [runGroups]
      exact ih _ _
    · simp only [runGroups]
      by_cases hesc : ((executeStepWithRetry mr
          (executeStep mg policy ctx (dispatch step))).1).action_needed =
            some ActionLit.escalate
      · rw [if_pos hesc, if_pos hesc]
        rw [h₁, h₂]
      · rw [if_neg hesc, if_neg hesc]
        exact ih _ _
    · simp only [runGroups]
      exact ih _ _

/-- `Except`'s bind applied to a success, reduced. -/
theorem exceptOk_bind {ε α β : Type} (a : α) (f : α → Except ε β) :
    (Except.ok (ε := ε) a >>= f) = f a := rfl

/-- The layer loop of `run_pipeline` gives equal outcomes under any two
never-raising notifiers. -/
theorem runLayers_notifier_congr (mg : String → String → Bool)
    (policy : Policy) (weights : List (String × ℚ)) (mr : ℕ)
    (dispatch : Dispatch) (ctx : Context) (n₁ n₂ : Notifier)
    (h₁ : ∀ e m c, n₁ e m c = .ok ()) (h₂ : ∀ e m c, n₂ e m c = .ok ()) :
    ∀ (layers : List (List StepConfig)) (idx : ℕ)
      (sr : List (String × AgentResult)) (br : List String),
      runLayers mg policy weights mr n₁ dispatch ctx layers idx sr br =
        runLayers mg policy weights mr n₂ dispatch ctx layers idx sr br := by
  intro layers
  induction layers with
  | nil => intro idx sr br; rfl
  | cons layer rest ih =>
    intro idx sr br
    simp only [runLayers]
    rw [runGroups_notifier_congr mg policy weights mr dispatch ctx n₁ n₂ h₁ h₂]
    cases hg : runGroups mg policy weights mr n₂ dispatch ctx
        (groupByParallel layer) sr br with
    | error e => rfl
    | ok v =>
      cases v with
      | inl pr => rfl
      | inr st =>
        obtain ⟨sr2, br2⟩ := st
        simp only [exceptOk_bind]
        by_cases hbr : ¬ br2.isEmpty = true
        · rw [if_pos hbr, if_pos hbr, h₁, h₂]
        · rw [if_neg hbr, if_neg hbr]
          exact ih _ _ _

/-- C1, amended: the notify call happens only after the verdict is
computed, and the orchestrator ignores its return value — so any two
notifiers whose `notify` returns normally yield identical
`PipelineResult`s; but an exception raised by `notify` on the terminal
event propagates out of `run_pipeline`, which then returns no
`PipelineResult` at all (see the counterexample). -/
theorem claim1_nonraising_notifier_cannot_alter_verdict
    (mg : String → String → Bool) (policy : Policy)
    (weights : List (String × ℚ)) (mr : ℕ) (dispatch : Dispatch)
    (steps : List StepConfig) (ctx : Context) (n₁ n₂ : Notifier)
    (h₁ : ∀ e m c, n₁ e m c = .ok ()) (h₂ : ∀ e m c, n₂ e m c = .ok ()) :
    runPipeline mg policy weights mr n₁ dispatch steps ctx =
      runPipeline mg policy weights mr n₂ dispatch steps ctx := by
  unfold runPipeline
  cases hres : resolveDependencies steps with
  | error e => rfl
  | ok layers =>
    dsimp only []
    rw [runLayers_notifier_congr mg policy weights mr dispatch ctx n₁ n₂ h₁ h₂]
    cases hl : runLayers mg policy weights mr n₂ dispatch ctx layers 0 [] [] with
    | error e => rfl
    | ok v =>
      cases v with
      | inl pr => rfl
      | inr st =>
        obtain ⟨sr, br⟩ := st
        simp only [exceptOk_bind]
        by_cases hd1 : makeDecision policy
            { success := (if (scoreOf weights sr).has_critical then
                br ++ ["Critical finding detected by confidence scorer."]
              else br).isEmpty
              confidence := (scoreOf weights sr).score
              step_results := sr
              blocked := ¬ (if (scoreOf weights sr).has_critical then
                br ++ ["Critical finding detected by confidence scorer."]
              else br).isEmpty
              block_reasons := if (scoreOf weights sr).has_critical then
                br ++ ["Critical finding detected by confidence scorer."]
              else br } = "block"
        · rw [if_pos hd1, if_pos hd1, h₁, h₂]
        · rw [if_neg hd1, if_neg hd1]
          by_cases hd2 : makeDecision policy
              { success := (if (scoreOf weights sr).has_critical then
                  br ++ ["Critical finding detected by confidence scorer."]
                else br).isEmpty
                confidence := (scoreOf weights sr).score
                step_results := sr
                blocked := ¬ (if (scoreOf weights sr).has_critical then
                  br ++ ["Critical finding detected by confidence scorer."]
                else br).isEmpty
                block_reasons := if (scoreOf weights sr).has_critical then
                  br ++ ["Critical finding detected by confidence scorer."]
                else br } = "notify"
          · rw [if_pos hd2, if_pos hd2, h₁, h₂]
          · rw [if_neg hd2, if_neg hd2, h₁, h₂]

/-- C1 witness: a concrete deploy-reaching pipeline returns the same
result under two different non-raising notifiers. -/
theorem claim1_witness :
    runPipeline (fun _ _ => false) defaultPolicy DEFAULT_WEIGHTS 1
      nullNotifier okDispatch [soloStep] {} =
    runPipeline (fun _ _ => false) defaultPolicy DEFAULT_WEIGHTS 1
      okNotifier okDispatch [soloStep] {} :=
  claim1_nonraising_notifier_cannot_alter_verdict _ _ _ _ _ _ _ _ _
    (fun _ _ _ => rfl) (fun _ _ _ => rfl)

end Dockcheck
